import Mathlib

/-!
# Cryptographic-implementation-testing: curve sampling and the constraint check

A shallow embedding of

* `generateCurvePoints` (`src/ECC.go`, lines 98-126), the sampling loop that
  feeds the scatter plot, and
* `Circuit.CheckConstraints` (`src/Zk-snark.go`, lines 71-88).

`generateCurvePoints` drives a `float64` loop (`for x := xMin; x <= xMax; x += step`)
around arbitrary-precision integer arithmetic.  The integer part is embedded over
`Int`.  The `float64` part is embedded by `Float64` below: IEEE 754 binary64 with
round-to-nearest-even, infinities and NaN, every finite value being held as an
integer number of units of `2^-1074` (the smallest subnormal).

`big.Int.ModSqrt` belongs to the Go library; `generateCurvePoints` takes it as the
parameter `modSqrt`, and `ModSqrt` follows the square-root policy of the spec for
concrete runs.
-/

set_option exponentiation.threshold 4096
set_option maxRecDepth 100000

namespace ECC

/-! ## float64 -/

/-- A `float64` value.  `fin k` is the finite number `k * 2^-1074`; `inf s` is the
infinity of sign `s` (`true` for negative).  The two zeros are identified: the
sampling loop compares, adds and truncates its floats, which treats both zeros
alike, and its only divisor is `float64(numPoints)`, which is never `-0`. -/
inductive Float64 where
  | nan : Float64
  | inf (neg : Bool) : Float64
  | fin (k : Int) : Float64
  deriving DecidableEq, Repr

namespace Float64

/-- Number of units of `2^-1074` in `1.0`. -/
def unit : Nat := 2 ^ 1074

/-- The least magnitude, in units, that no longer rounds to a finite value
(`2^1024` in units of `2^-1074`). -/
def overflowUnits : Nat := 2 ^ 2098

/-- Bit length of `n` (`0` for `0`), by repeated halving; the first argument bounds
the number of halvings. -/
def bitLength : Nat → Nat → Nat
  | 0, _ => 0
  | fuel + 1, n => if n = 0 then 0 else bitLength fuel (n / 2) + 1

/-- Round the non-negative rational `n / d` (in units of `2^-1074`) to the nearest
number with a 53-bit significand, ties to even.  Below `2^53` units the spacing is
one unit, which covers the subnormal range. -/
def roundUnits (n d : Nat) : Nat :=
  let sh := bitLength (n / d) (n / d) - 53
  let den := d * 2 ^ sh
  let q := n / den
  let r := n % den
  if den < 2 * r ∨ (2 * r = den ∧ q % 2 = 1) then (q + 1) * 2 ^ sh else q * 2 ^ sh

/-- The float nearest to `± n / d` units; overflow gives the infinity of that sign. -/
def ofRatio (neg : Bool) (n d : Nat) : Float64 :=
  let u := roundUnits n d
  if overflowUnits ≤ u then inf neg else fin (if neg then -(u : Int) else (u : Int))

/-- The float nearest to the integer number `s` of units.  `ofUnits k = fin k` says that
`k` units is a `float64` value: rounding leaves it unchanged and it does not overflow. -/
def ofUnits (s : Int) : Float64 := ofRatio (decide (s < 0)) s.natAbs 1

/-- Conversion `float64(n)` of an integer. -/
def ofInt (n : Int) : Float64 := ofUnits (n * (unit : Int))

/-- The float `0`. -/
def zero : Float64 := fin 0

/-- Negation. -/
def neg : Float64 → Float64
  | nan => nan
  | inf s => inf (!s)
  | fin k => fin (-k)

/-- Addition `a + b`. -/
def add : Float64 → Float64 → Float64
  | nan, _ => nan
  | _, nan => nan
  | inf s, inf t => if s = t then inf s else nan
  | inf s, fin _ => inf s
  | fin _, inf t => inf t
  | fin a, fin b => ofUnits (a + b)

/-- Subtraction `a - b`. -/
def sub (a b : Float64) : Float64 := add a (neg b)

/-- Division `a / b`.  A zero divisor is `+0`: a non-zero finite or infinite
dividend gives the infinity of the dividend's sign, and `0 / 0` is NaN. -/
def div : Float64 → Float64 → Float64
  | nan, _ => nan
  | _, nan => nan
  | inf _, inf _ => nan
  | inf s, fin b => inf (s != decide (b < 0))
  | fin _, inf _ => fin 0
  | fin a, fin b =>
    if b = 0 then (if a = 0 then nan else inf (decide (a < 0)))
    else ofRatio (decide (a < 0) != decide (b < 0)) (a.natAbs * unit) b.natAbs

/-- Comparison `a <= b`; false when either side is NaN. -/
def le : Float64 → Float64 → Bool
  | nan, _ => false
  | _, nan => false
  | inf s, inf t => s || !t
  | inf s, fin _ => s
  | fin _, inf t => !t
  | fin a, fin b => decide (a ≤ b)

/-- Comparison `a < b`; false when either side is NaN. -/
def lt : Float64 → Float64 → Bool
  | nan, _ => false
  | _, nan => false
  | inf s, inf t => s && !t
  | inf s, fin _ => s
  | fin _, inf t => !t
  | fin a, fin b => decide (a < b)

/-- Conversion `int64(x)`: truncation toward zero.  When the truncated value does
not fit an `int64` (NaN and the infinities included) Go leaves the result to the
implementation; the value here is the one amd64 produces, `-2^63`. -/
def toInt64 : Float64 → Int
  | fin k =>
    let t : Int := if k < 0 then -((k.natAbs / unit : Nat) : Int) else ((k.natAbs / unit : Nat) : Int)
    if -(2 : Int) ^ 63 ≤ t ∧ t < (2 : Int) ^ 63 then t else -(2 : Int) ^ 63
  | _ => -(2 : Int) ^ 63

end Float64

/-! ## Curve parameters and the library routines -/

/-- The fields of Go's `elliptic.CurveParams` that `generateCurvePoints` reads: the
modulus `P` and the constant coefficient `B`.  Go's parameter block has no field for
the linear coefficient. -/
structure CurveParams where
  P : Int
  B : Int
  deriving DecidableEq, Repr

/-- The curve `y² = x³ + a·x + b (mod p)` of spec section 3 (CurveDomain). -/
structure CurveDomain where
  p : Int
  a : Int
  b : Int
  deriving DecidableEq, Repr

/-- The call `curve.Params()`. -/
def CurveDomain.Params (curve : CurveDomain) : CurveParams := ⟨curve.p, curve.b⟩

/-- Modelled from the spec: `curve.IsOnCurve` is the Go library's, not a function of
the repository (`main`, lines 44-48, only calls it).  Spec section 4.2: true iff
`y² mod p == (x³ + a·x + b) mod p`, and false for any coordinate outside `[0, p)`. -/
def IsOnCurve (curve : CurveDomain) (x y : Int) : Bool :=
  decide (0 ≤ x ∧ x < curve.p ∧ 0 ≤ y ∧ y < curve.p) &&
    decide ((y * y) % curve.p = (x ^ 3 + curve.a * x + curve.b) % curve.p)

/-- Modular exponentiation by square-and-multiply: `b ^ e mod m`, the first argument
bounding the number of halvings of `e`. -/
def expLoop (m : Int) : Nat → Int → Nat → Int
  | 0, _, _ => 1 % m
  | fuel + 1, b, e =>
    if e = 0 then 1 % m
    else
      let h := expLoop m fuel ((b * b) % m) (e / 2)
      if e % 2 = 1 then (b * h) % m else h

/-- The modular power `x ^ y mod m` for an exponent `y >= 0`. -/
def Exp (x : Int) (y : Nat) (m : Int) : Int := expLoop m y x y

/-- The number of factors `2` of `n`, the first argument bounding the halvings. -/
def twoAdicity : Nat → Nat → Nat
  | 0, _ => 0
  | fuel + 1, n => if n % 2 = 0 ∧ n ≠ 0 then twoAdicity fuel (n / 2) + 1 else 0

/-- The least `n' >= n` with `n' ^ ((p - 1) / 2) ≡ -1 (mod p)`, searched for at most
`fuel` steps. -/
def leastNonResidue (p : Int) : Nat → Int → Int
  | 0, n => n
  | fuel + 1, n =>
    if Exp n ((p - 1) / 2).toNat p = p - 1 then n else leastNonResidue p fuel (n + 1)

/-- The least `m` with `t ^ (2 ^ m) ≡ 1 (mod p)`, searched for at most `fuel` squarings. -/
def squaringsToOne (p : Int) : Nat → Int → Nat
  | 0, _ => 0
  | fuel + 1, t => if t % p = 1 % p then 0 else squaringsToOne p fuel ((t * t) % p) + 1

/-- The main loop of Tonelli–Shanks on `(y, b, g, r)` with `y² ≡ x·b` and `b` of order
dividing `2 ^ (r - 1)`: it ends with `b = 1` and returns `y`. -/
def tonelliLoop (p : Int) : Nat → Int → Int → Int → Nat → Int
  | 0, y, _, _, _ => y
  | fuel + 1, y, b, g, r =>
    let m := squaringsToOne p r b
    if m = 0 then y
    else
      let t := Exp g (2 ^ (r - m - 1)) p
      let g2 := (t * t) % p
      tonelliLoop p fuel ((y * t) % p) ((b * g2) % p) g2 m

/-- Tonelli–Shanks for a prime `p`: with `p - 1 = s · 2^e`, `s` odd, and `n` the least
non-residue, start from `y = x^((s+1)/2)`, `b = x^s`, `g = n^s`.  Euler's criterion
`x^((p-1)/2)` decides first whether a root exists. -/
def modSqrtTonelliShanks (x p : Int) : Option Int :=
  let euler := Exp x ((p - 1) / 2).toNat p
  if euler = 0 then some 0
  else if euler ≠ 1 then none
  else
    let e := twoAdicity (p - 1).toNat (p - 1).toNat
    let s := (p - 1).toNat / 2 ^ e
    let n := leastNonResidue p p.toNat 2
    some (tonelliLoop p (e + 1) (Exp x ((s + 1) / 2) p) (Exp x s p) (Exp n s p) e)

/-- Modelled from the spec: `big.Int.ModSqrt` is the Go library's.  Spec section 4.3,
step 4: if `p ≡ 3 (mod 4)` the root is `y = r^((p+1)/4) mod p`, verified by `y² ≡ r`;
for general `p` it is the root Tonelli–Shanks computes; when `r` is a quadratic
non-residue there is no root.  For `p ≡ 3 (mod 4)`, the case of P-256 and of the curve
mod 7 below, this is the root Go's routine returns. -/
def ModSqrt (r p : Int) : Option Int :=
  if p % 4 = 3 then
    let y := Exp r ((p + 1) / 4).toNat p
    if (y * y) % p = r % p then some y else none
  else modSqrtTonelliShanks r p

/-- The method `big.Int.Int64`: the low 64 bits of the magnitude as a two's-complement
`int64`, negated (with wrap-around) for a negative number. -/
def Int64 (y : Int) : Int :=
  let w : Int := ((y.natAbs % 2 ^ 64 : Nat) : Int)
  ((if y < 0 then -w else w) + 2 ^ 63) % 2 ^ 64 - 2 ^ 63

/-! ## generateCurvePoints -/

/-- The element type `plotter.XY` of the returned slice. -/
structure XY where
  X : Float64
  Y : Float64
  deriving DecidableEq, Repr

/-- An emitted point together with the integers it was computed from: `X` is the
sampled float (the `X` of the `plotter.XY`), `x` the quantized abscissa
`big.NewInt(int64(x))` and `y` the field ordinate (`yBig` or `negY`) before its
conversion to `float64`. -/
structure CurvePoint where
  X : Float64
  x : Int
  y : Int
  deriving DecidableEq, Repr

/-- The `plotter.XY` appended for a point: `plotter.XY{X: x, Y: float64(y.Int64())}`. -/
def CurvePoint.toXY (pt : CurvePoint) : XY := ⟨pt.X, Float64.ofInt (Int64 pt.y)⟩

/-- The value `y2` of lines 113-116: `y2 = Exp(xBig, 3, P)`, `y2 += xBig * B`,
`y2 += B`, `y2 = y2 mod P` (the right-hand side handed to the square root). -/
def rhs (p : CurveParams) (xBig : Int) : Int :=
  ((xBig ^ 3) % p.P + xBig * p.B + p.B) % p.P

/-- The body of the sampling loop (lines 104-123) for one sampled `x`: the points it
appends.  Both `continue` statements and a nil square root append nothing. -/
def samplePoints (modSqrt : Int → Int → Option Int) (p : CurveParams) (x : Float64) :
    List CurvePoint :=
  if Float64.lt x Float64.zero then []
  else
    let xBig := Float64.toInt64 x
    if p.P ≤ xBig then []
    else
      let y2 := rhs p xBig
      match modSqrt y2 p.P with
      | none => []
      | some yBig =>
        let negY := p.P - yBig
        [⟨x, xBig, yBig⟩, ⟨x, xBig, negY⟩]

/-- The loop `for x := xMin; x <= xMax; x += step` (line 103), run for at most `fuel`
evaluations of its condition: `some points` once the condition fails, `none` while it
still holds when the fuel is used up. -/
def sampleLoop (modSqrt : Int → Int → Option Int) (p : CurveParams) (xMax step : Float64) :
    Nat → Float64 → List CurvePoint → Option (List CurvePoint)
  | 0, _, _ => none
  | fuel + 1, x, points =>
    if Float64.le x xMax then
      sampleLoop modSqrt p xMax step fuel (Float64.add x step) (points ++ samplePoints modSqrt p x)
    else some points

/-- The function `generateCurvePoints` (lines 98-126); `numPoints` is Go's `int`.
The result lists the appended points in order, each with the integers behind it;
`plotterXYs` gives the slice of `plotter.XY` values itself. -/
def generateCurvePoints (modSqrt : Int → Int → Option Int) (curve : CurveDomain)
    (xMin xMax : Float64) (numPoints : Int) (fuel : Nat) : Option (List CurvePoint) :=
  let p := curve.Params
  let step := Float64.div (Float64.sub xMax xMin) (Float64.ofInt numPoints)
  sampleLoop modSqrt p xMax step fuel xMin []

/-- The returned slice `plotter.XYs`. -/
def plotterXYs (points : List CurvePoint) : List XY := points.map CurvePoint.toXY

/-! ## Curves used in the examples, and the pairing of a slice -/

/-- The domain parameters of `elliptic.P256()` (`main`, line 20), as the standard
gives them: `p = 2^256 - 2^224 + 2^192 + 2^96 - 1`, `a = p - 3` and `b`. -/
def P256 : CurveDomain :=
  { p := 2 ^ 256 - 2 ^ 224 + 2 ^ 192 + 2 ^ 96 - 1
    a := 2 ^ 256 - 2 ^ 224 + 2 ^ 192 + 2 ^ 96 - 1 - 3
    b := 0x5ac635d8aa3a93e7b3ebbd55769886bc651d06b0cc53b0f63bce3c3e27d2604b }

/-- The X coordinate of the P-256 base point. -/
def P256Gx : Int := 0x6b17d1f2e12c4247f8bce6e563a440f277037d812deb33a0f4a13945d898c296

/-- The Y coordinate of the P-256 base point. -/
def P256Gy : Int := 0x4fe342e2fe1a7f9b8ee7eb4a7c0f9e162bce33576b315ececbb6406837bf51f5

/-- The lower end of the range `main` samples for a key with X coordinate `x`
(lines 57-60): `xFloat - margin` with `xFloat = float64(x.Int64())`, `margin = 100`. -/
def mainXMin (x : Int) : Float64 := Float64.sub (Float64.ofInt (Int64 x)) (Float64.ofInt 100)

/-- The upper end of that range (line 61): `xFloat + margin`. -/
def mainXMax (x : Int) : Float64 := Float64.add (Float64.ofInt (Int64 x)) (Float64.ofInt 100)

/-- The small curve `y² = x³ + 4·x + 3 (mod 7)`; `4 ≡ -3 (mod 7)`, the linear
coefficient Go's generic `CurveParams` arithmetic assumes, and
`4·4³ + 27·3² ≡ 2 (mod 7)`, so the curve is non-singular. -/
def curve7 : CurveDomain := { p := 7, a := 4, b := 3 }

/-- Pairs `(x, y)`, `(x, P - y)` laid end to end. -/
inductive Paired (P : Int) : List CurvePoint → Prop
  | nil : Paired P []
  | cons (X : Float64) (x y : Int) {rest : List CurvePoint} :
      Paired P rest → Paired P (⟨X, x, y⟩ :: ⟨X, x, P - y⟩ :: rest)

end ECC

/-! ## Circuit.CheckConstraints -/

namespace ZkSnark

/-- The struct `Circuit`; an entry of a `[]*big.Int` is a pointer, `none` when nil. -/
structure Circuit where
  PublicInputs : List (Option Int)
  Witness : List (Option Int)
  deriving DecidableEq, Repr

/-- The method `CheckConstraints` (lines 72-88).  `none` is the run-time panic of
`Mul` or `Cmp` on a nil operand. -/
def Circuit.CheckConstraints (c : Circuit) : Option Bool :=
  if c.PublicInputs.length < 3 ∨ c.Witness.length < 2 then some false
  else
    match c.Witness[0]?, c.Witness[1]?, c.PublicInputs[2]? with
    | some (some a), some (some b), some (some expectedC) =>
      let product := a * b
      some (decide (product = expectedC))
    | _, _, _ => none

/-- The circuit built in `main` (lines 92-102). -/
def mainCircuit : Circuit :=
  { PublicInputs := [some 10, some 20, some 200], Witness := [some 10, some 20] }

end ZkSnark

/-! ## Lemmas on the float operations -/

namespace ECC

open Float64

theorem Float64.ofInt_zero : ofInt 0 = fin 0 := by decide

theorem Float64.ofUnits_zero : ofUnits 0 = fin 0 := by decide

theorem Float64.le_eq_false_of_lt {a b : Float64} (h : lt b a = true) : le a b = false := by
  cases a <;> cases b <;> simp_all [lt, le]

theorem Float64.le_refl_fin (k : Int) : le (fin k) (fin k) = true := by
  simp [le]

/-- A non-negative number of units rounds to `+Inf` or to a non-negative finite value. -/
theorem Float64.ofUnits_nonneg {s : Int} (hs : 0 ≤ s) :
    ofUnits s = inf false ∨ ∃ u : Int, 0 ≤ u ∧ ofUnits s = fin u := by
  have hd : decide (s < 0) = false := by simp [hs]
  unfold ofUnits ofRatio
  rw [hd]
  by_cases h : overflowUnits ≤ roundUnits s.natAbs 1
  · left; simp [h]
  · right
    refine ⟨(roundUnits s.natAbs 1 : Int), Int.ofNat_nonneg _, ?_⟩
    simp [h]

theorem Float64.bitLength_le (fuel n : Nat) (hn : n ≠ 0) : 2 ^ bitLength fuel n ≤ 2 * n := by
  induction fuel generalizing n with
  | zero => simp [bitLength]; omega
  | succ f ih =>
    simp only [bitLength, if_neg hn]
    by_cases h2 : n / 2 = 0
    · have : bitLength f (n / 2) = 0 := by
        rw [h2]; cases f <;> simp [bitLength]
      rw [this]; simp; omega
    · have := ih (n / 2) h2
      rw [pow_succ]
      omega

/-- Rounding a positive integer number of units never gives zero. -/
theorem Float64.roundUnits_pos {n : Nat} (hn : 0 < n) : 0 < roundUnits n 1 := by
  have hb := Float64.bitLength_le n n (by omega)
  have hsh : 2 ^ (bitLength n n - 53) ≤ n := by
    by_cases h : bitLength n n ≤ 53
    · have : bitLength n n - 53 = 0 := by omega
      rw [this]; simpa using hn
    · have : bitLength n n = (bitLength n n - 53) + 53 := by omega
      rw [this, pow_add] at hb
      have h53 : 2 ≤ 2 ^ 53 := by norm_num
      nlinarith [Nat.two_pow_pos (bitLength n n - 53)]
  have hp : 0 < 2 ^ (bitLength n n - 53) := Nat.two_pow_pos _
  have hq : 0 < n / (1 * 2 ^ (bitLength n n - 53)) := by
    rw [one_mul]
    exact Nat.div_pos hsh hp
  unfold roundUnits
  simp only [Nat.div_one]
  split
  · exact Nat.mul_pos (by omega) hp
  · exact Nat.mul_pos hq hp

end ECC

/-! ## Lemmas on the sampling loop -/

namespace ECC

open Float64

theorem Paired.append {P : Int} {l₁ l₂ : List CurvePoint} (h₁ : Paired P l₁)
    (h₂ : Paired P l₂) : Paired P (l₁ ++ l₂) := by
  induction h₁ with
  | nil => simpa using h₂
  | cons X x y _ ih => exact Paired.cons X x y ih

theorem samplePoints_paired (modSqrt : Int → Int → Option Int) (p : CurveParams)
    (x : Float64) : Paired p.P (samplePoints modSqrt p x) := by
  unfold samplePoints
  split
  · exact Paired.nil
  · dsimp only
    split
    · exact Paired.nil
    · split
      · exact Paired.nil
      · exact Paired.cons _ _ _ Paired.nil

theorem sampleLoop_paired (modSqrt : Int → Int → Option Int) (p : CurveParams)
    (xMax step : Float64) (fuel : Nat) (x : Float64) (acc out : List CurvePoint)
    (hacc : Paired p.P acc) (h : sampleLoop modSqrt p xMax step fuel x acc = some out) :
    Paired p.P out := by
  induction fuel generalizing x acc with
  | zero => simp [sampleLoop] at h
  | succ f ih =>
    unfold sampleLoop at h
    split at h
    · exact ih _ _ (hacc.append (samplePoints_paired modSqrt p x)) h
    · cases h; exact hacc

theorem Paired.length_even {P : Int} {l : List CurvePoint} (h : Paired P l) :
    l.length % 2 = 0 := by
  induction h with
  | nil => rfl
  | cons X x y _ ih => simp only [List.length_cons]; omega

theorem Paired.index {P : Int} {l : List CurvePoint} (h : Paired P l) (k : Nat)
    (hk : 2 * k + 1 < l.length) :
    ∃ a b : CurvePoint, l[2 * k]? = some a ∧ l[2 * k + 1]? = some b ∧
      a.X = b.X ∧ a.x = b.x ∧ a.y + b.y = P := by
  induction h generalizing k with
  | nil => simp at hk
  | cons X x y _ ih =>
    cases k with
    | zero => exact ⟨⟨X, x, y⟩, ⟨X, x, P - y⟩, by simp, by simp, rfl, rfl, by simp⟩
    | succ j =>
      simp only [List.length_cons] at hk
      obtain ⟨a, b, ha, hb, h⟩ := ih j (by omega)
      refine ⟨a, b, ?_, ?_, h⟩
      · rw [show 2 * (j + 1) = (2 * j) + 1 + 1 by ring]; simpa using ha
      · rw [show 2 * (j + 1) + 1 = (2 * j + 1) + 1 + 1 by ring]; simpa using hb

/-- A returned slice is the points of the samples `xMin`, `xMin + step`, ... in order:
the loop left at the first of these that is not `<= xMax`. -/
theorem sampleLoop_samples (modSqrt : Int → Int → Option Int) (p : CurveParams)
    (xMax step : Float64) (fuel : Nat) (x : Float64) (acc out : List CurvePoint)
    (h : sampleLoop modSqrt p xMax step fuel x acc = some out) :
    ∃ n : Nat,
      (∀ i : Nat, i < n → le (Nat.iterate (fun z => add z step) i x) xMax = true) ∧
      le (Nat.iterate (fun z => add z step) n x) xMax = false ∧
      out = acc ++ ((List.range n).map (fun i => Nat.iterate (fun z => add z step) i x)).flatMap
        (samplePoints modSqrt p) := by
  induction fuel generalizing x acc with
  | zero => simp [sampleLoop] at h
  | succ f ih =>
    unfold sampleLoop at h
    split at h
    · next hle =>
      obtain ⟨n, hall, hstop, hout⟩ := ih _ _ h
      refine ⟨n + 1, ?_, ?_, ?_⟩
      · intro i hi
        cases i with
        | zero => exact hle
        | succ j => exact hall j (by omega)
      · exact hstop
      · rw [hout, List.range_succ_eq_map, List.map_cons, List.flatMap_cons, List.map_map,
          List.append_assoc]
        rfl
    · next hle =>
      cases h
      exact ⟨0, fun i hi => absurd hi (Nat.not_lt_zero i), by simpa using hle, by simp⟩

theorem rhs_eq (p : CurveParams) (x : Int) : rhs p x = (x ^ 3 + p.B * x + p.B) % p.P := by
  unfold rhs
  rw [add_assoc, Int.emod_add_emod, ← add_assoc, mul_comm x p.B]

/-- When `x <= xMax` and adding the step leaves `x` unchanged, the loop condition holds
forever. -/
theorem sampleLoop_absorbed (modSqrt : Int → Int → Option Int) (p : CurveParams)
    (xMax step x : Float64) (hle : le x xMax = true) (habs : add x step = x) (fuel : Nat)
    (acc : List CurvePoint) : sampleLoop modSqrt p xMax step fuel x acc = none := by
  induction fuel generalizing acc with
  | zero => rfl
  | succ f ih =>
    unfold sampleLoop
    rw [hle, habs]
    simpa using ih _

end ECC

/-! ## The claims about `generateCurvePoints` -/

namespace ECC

open Float64

/-- Claim C1, evaluated on the code: on the curve `y² = x³ + 4·x + 3 (mod 7)`, sampling
`[0, 3]` with 3 steps returns the four points `(1, 0)`, `(1, 7)`, `(3, 2)`, `(3, 5)`.
`IsOnCurve` is false for each of them, and already the roots `(1, 0)` and `(3, 2)`
fail the equation `y² mod p = (x³ + a·x + b) mod p`. -/
theorem generateCurvePoints_emits_points_off_curve :
    generateCurvePoints ModSqrt curve7 (ofInt 0) (ofInt 3) 3 5 =
        some [⟨ofInt 1, 1, 0⟩, ⟨ofInt 1, 1, 7⟩, ⟨ofInt 3, 3, 2⟩, ⟨ofInt 3, 3, 5⟩] ∧
      IsOnCurve curve7 1 0 = false ∧ IsOnCurve curve7 1 7 = false ∧
      IsOnCurve curve7 3 2 = false ∧ IsOnCurve curve7 3 5 = false ∧
      ((0 : Int) * 0) % curve7.p ≠ ((1 : Int) ^ 3 + curve7.a * 1 + curve7.b) % curve7.p ∧
      ((2 : Int) * 2) % curve7.p ≠ ((3 : Int) ^ 3 + curve7.a * 3 + curve7.b) % curve7.p := by
  decide

/-- Claim C2, evaluated on the code: on the curve `y² = x³ + 4·x + 3 (mod 7)` the value
computed for the sample `x = 1` is `0`, while `(x³ + a·x + b) mod p` is `1`; the loop
body hands that `0` to the square root and emits its root. -/
theorem rhs_differs_from_weierstrass :
    rhs curve7.Params (toInt64 (ofInt 1)) = 0 ∧
      ((toInt64 (ofInt 1)) ^ 3 + curve7.a * toInt64 (ofInt 1) + curve7.b) % curve7.p = 1 ∧
      samplePoints ModSqrt curve7.Params (ofInt 1) = [⟨ofInt 1, 1, 0⟩, ⟨ofInt 1, 1, 7⟩] := by
  decide

/-- Claim C3: a returned slice is the concatenation, in order, of what the loop body
appends for the samples `xMin`, `xMin + step`, ... up to the first one that is not
`<= xMax`.  For a sample that fails the range filter the body appends nothing; for one
that passes it the body appends the two adjacent points `(x, y)`, `(x, p - y)` when
the right-hand side has a root `y` and nothing when it has none.  Hence the slice has
even length, and its points at positions `2k` and `2k + 1` share their `x` and have
ordinates summing to `p`. -/
theorem generateCurvePoints_symmetric_pairs (modSqrt : Int → Int → Option Int)
    (curve : CurveDomain) (xMin xMax : Float64) (numPoints : Int) (fuel : Nat)
    (points : List CurvePoint)
    (h : generateCurvePoints modSqrt curve xMin xMax numPoints fuel = some points) :
    (∃ n : Nat,
        (∀ i : Nat, i < n →
          le (Nat.iterate
            (fun z => add z (div (sub xMax xMin) (ofInt numPoints))) i xMin) xMax = true) ∧
        le (Nat.iterate
          (fun z => add z (div (sub xMax xMin) (ofInt numPoints))) n xMin) xMax = false ∧
        points = ((List.range n).map (fun i => Nat.iterate
            (fun z => add z (div (sub xMax xMin) (ofInt numPoints))) i xMin)).flatMap
          (samplePoints modSqrt curve.Params)) ∧
      (∀ x : Float64, lt x zero = true ∨ curve.p ≤ toInt64 x →
        samplePoints modSqrt curve.Params x = []) ∧
      (∀ x : Float64, lt x zero = false → toInt64 x < curve.p →
        samplePoints modSqrt curve.Params x =
          match modSqrt (rhs curve.Params (toInt64 x)) curve.p with
          | none => []
          | some y => [⟨x, toInt64 x, y⟩, ⟨x, toInt64 x, curve.p - y⟩]) ∧
      points.length % 2 = 0 ∧
      ∀ k : Nat, 2 * k + 1 < points.length →
        ∃ a b : CurvePoint, points[2 * k]? = some a ∧ points[2 * k + 1]? = some b ∧
          a.X = b.X ∧ a.x = b.x ∧ a.y + b.y = curve.p := by
  have hp : Paired curve.p points :=
    sampleLoop_paired modSqrt curve.Params xMax _ fuel xMin [] points Paired.nil h
  have hs := sampleLoop_samples modSqrt curve.Params xMax _ fuel xMin [] points h
  refine ⟨?_, ?_, ?_, hp.length_even, fun k hk => hp.index k hk⟩
  · obtain ⟨n, hall, hstop, hout⟩ := hs
    exact ⟨n, hall, hstop, by simpa using hout⟩
  · intro x hx
    unfold samplePoints
    rcases hx with hx | hx
    · simp [hx]
    · have hx2 : curve.Params.P ≤ toInt64 x := hx
      by_cases h0 : lt x zero = true
      · simp [h0]
      · simp [h0, hx2]
  · intro x hx hlt
    have hlt2 : ¬ curve.Params.P ≤ toInt64 x := not_le.mpr hlt
    unfold samplePoints
    simp only [hx, Bool.false_eq_true, if_false, if_neg hlt2]
    rfl

/-- Witness for claim C3: the run over `[0, 6]` with 6 steps on the curve mod 7 returns
six points, the roots `0`, `2`, `4` each followed by its mirror.  The slice is the
concatenation of the body's output over the samples, its length is even, and the last
two points share `x = 4` with `4 + 3 = 7`. -/
theorem generateCurvePoints_symmetric_pairs_witness :
    generateCurvePoints ModSqrt curve7 (ofInt 0) (ofInt 6) 6 8 =
        some [⟨ofInt 1, 1, 0⟩, ⟨ofInt 1, 1, 7⟩, ⟨ofInt 3, 3, 2⟩, ⟨ofInt 3, 3, 5⟩,
          ⟨ofInt 4, 4, 4⟩, ⟨ofInt 4, 4, 3⟩] ∧
      (∃ n : Nat,
        (∀ i : Nat, i < n →
          le (Nat.iterate
            (fun z => add z (div (sub (ofInt 6) (ofInt 0)) (ofInt 6))) i (ofInt 0))
            (ofInt 6) = true) ∧
        le (Nat.iterate
          (fun z => add z (div (sub (ofInt 6) (ofInt 0)) (ofInt 6))) n (ofInt 0))
          (ofInt 6) = false ∧
        ([⟨ofInt 1, 1, 0⟩, ⟨ofInt 1, 1, 7⟩, ⟨ofInt 3, 3, 2⟩, ⟨ofInt 3, 3, 5⟩,
          ⟨ofInt 4, 4, 4⟩, ⟨ofInt 4, 4, 3⟩] : List CurvePoint) =
          ((List.range n).map (fun i => Nat.iterate
            (fun z => add z (div (sub (ofInt 6) (ofInt 0)) (ofInt 6))) i (ofInt 0))).flatMap
            (samplePoints ModSqrt curve7.Params)) ∧
      ([⟨ofInt 1, 1, 0⟩, ⟨ofInt 1, 1, 7⟩, ⟨ofInt 3, 3, 2⟩, ⟨ofInt 3, 3, 5⟩,
          ⟨ofInt 4, 4, 4⟩, ⟨ofInt 4, 4, 3⟩] : List CurvePoint).length % 2 = 0 ∧
      ∃ a b : CurvePoint,
        ([⟨ofInt 1, 1, 0⟩, ⟨ofInt 1, 1, 7⟩, ⟨ofInt 3, 3, 2⟩, ⟨ofInt 3, 3, 5⟩,
          ⟨ofInt 4, 4, 4⟩, ⟨ofInt 4, 4, 3⟩] : List CurvePoint)[2 * 2]? = some a ∧
        ([⟨ofInt 1, 1, 0⟩, ⟨ofInt 1, 1, 7⟩, ⟨ofInt 3, 3, 2⟩, ⟨ofInt 3, 3, 5⟩,
          ⟨ofInt 4, 4, 4⟩, ⟨ofInt 4, 4, 3⟩] : List CurvePoint)[2 * 2 + 1]? = some b ∧
        a.X = b.X ∧ a.x = b.x ∧ a.y + b.y = curve7.p :=
  have h := generateCurvePoints_symmetric_pairs ModSqrt curve7 (ofInt 0) (ofInt 6) 6 8
    [⟨ofInt 1, 1, 0⟩, ⟨ofInt 1, 1, 7⟩, ⟨ofInt 3, 3, 2⟩, ⟨ofInt 3, 3, 5⟩,
      ⟨ofInt 4, 4, 4⟩, ⟨ofInt 4, 4, 3⟩] (by decide)
  ⟨by decide, h.1, h.2.2.2.1, h.2.2.2.2 2 (by decide)⟩

/-- Claim C4, evaluated on the code: on the curve `y² = x³ + 4·x + 3 (mod 7)`, sampling
`[0, 2]` with 2 steps returns `(1, 0)` and `(1, 7)`; the second ordinate is the modulus
itself, `p - 0`, which is not below `p`. -/
theorem generateCurvePoints_emits_ordinate_p :
    generateCurvePoints ModSqrt curve7 (ofInt 0) (ofInt 2) 2 4 =
        some [⟨ofInt 1, 1, 0⟩, ⟨ofInt 1, 1, curve7.p⟩] ∧
      ¬ (curve7.p < curve7.p) := by
  decide

/-- Claim C5, evaluated on the code: when `xMin <= xMax` and adding
`step = (xMax - xMin) / numPoints` to `xMin` gives `xMin` again (the step is `0`, or
too small for the spacing of the floats at `xMin`), the loop condition never fails: no
number of iterations makes the call return. -/
theorem generateCurvePoints_never_returns_of_absorbed_step
    (modSqrt : Int → Int → Option Int) (curve : CurveDomain) (xMin xMax : Float64)
    (numPoints : Int) (hle : le xMin xMax = true)
    (habs : add xMin (div (sub xMax xMin) (ofInt numPoints)) = xMin) (fuel : Nat) :
    generateCurvePoints modSqrt curve xMin xMax numPoints fuel = none := by
  unfold generateCurvePoints
  exact sampleLoop_absorbed modSqrt curve.Params xMax _ xMin hle habs fuel []

/-- Witness for claim C5, at two inputs with `xMin <= xMax` and a positive sample count.
First `xMin = xMax = 0` with one sample.  Second the call `main` itself makes when the
key entered is the P-256 base point: the point passes `IsOnCurve`, the range is
`[-819310685055303168, -819310685055302912]`, and the step `0.256` is absorbed.
Neither call has returned after a million evaluations of the loop condition. -/
theorem generateCurvePoints_never_returns_of_absorbed_step_witness :
    (le (ofInt 0) (ofInt 0) = true ∧
        add (ofInt 0) (div (sub (ofInt 0) (ofInt 0)) (ofInt 1)) = ofInt 0 ∧
        generateCurvePoints ModSqrt curve7 (ofInt 0) (ofInt 0) 1 1000000 = none) ∧
      (IsOnCurve P256 P256Gx P256Gy = true ∧
        mainXMin P256Gx = ofInt (-819310685055303168) ∧
        mainXMax P256Gx = ofInt (-819310685055302912) ∧
        le (mainXMin P256Gx) (mainXMax P256Gx) = true ∧
        add (mainXMin P256Gx) (div (sub (mainXMax P256Gx) (mainXMin P256Gx)) (ofInt 1000)) =
          mainXMin P256Gx ∧
        generateCurvePoints ModSqrt P256 (mainXMin P256Gx) (mainXMax P256Gx) 1000 1000000 =
          none) :=
  ⟨⟨by decide, by decide,
      generateCurvePoints_never_returns_of_absorbed_step ModSqrt curve7 (ofInt 0) (ofInt 0) 1
        (by decide) (by decide) 1000000⟩,
    ⟨by decide, by decide, by decide, by decide, by decide,
      generateCurvePoints_never_returns_of_absorbed_step ModSqrt P256 (mainXMin P256Gx)
        (mainXMax P256Gx) 1000 (by decide) (by decide) 1000000⟩⟩

/-- Claim C6, refuted as stated: with `numPoints = 0` the call over `[1, 2]` on the curve
mod 7 returns the two points of the sample `x = 1`, not the empty slice. -/
theorem generateCurvePoints_zero_count_nonempty :
    generateCurvePoints ModSqrt curve7 (ofInt 1) (ofInt 2) 0 2 =
        some [⟨ofInt 1, 1, 0⟩, ⟨ofInt 1, 1, 7⟩] ∧
      generateCurvePoints ModSqrt curve7 (ofInt 1) (ofInt 2) 0 2 ≠ some [] := by
  decide

/-- Claim C6, amended: for finite `xMin <= xMax` and `numPoints = 0` the step is `+Inf`
or NaN, the loop body runs once, at `x = xMin`, and the call returns the points of that
one sample. -/
theorem generateCurvePoints_zero_count (modSqrt : Int → Int → Option Int)
    (curve : CurveDomain) (a b : Int) (hab : a ≤ b) (fuel : Nat) :
    generateCurvePoints modSqrt curve (fin a) (fin b) 0 (fuel + 2) =
      some (samplePoints modSqrt curve.Params (fin a)) := by
  have hle : le (fin a) (fin b) = true := by simp [le, hab]
  have hstep : div (sub (fin b) (fin a)) (ofInt 0) = nan ∨
      div (sub (fin b) (fin a)) (ofInt 0) = inf false := by
    rw [Float64.ofInt_zero]
    have hs : sub (fin b) (fin a) = ofUnits (b + -a) := rfl
    rw [hs]
    rcases Float64.ofUnits_nonneg (s := b + -a) (by omega) with h | ⟨u, hu, h⟩
    · right; rw [h]; simp [div]
    · rw [h]
      by_cases hu0 : u = 0
      · left; simp [div, hu0]
      · right
        have : ¬ u < 0 := by omega
        simp [div, hu0, this]
  unfold generateCurvePoints
  have hnan : ∀ y : Float64, le nan y = false := fun y => by cases y <;> rfl
  have hinf : le (inf false) (fin b) = false := rfl
  rcases hstep with h | h
  · simp only [h, sampleLoop, hle, if_true, add, hnan, Bool.false_eq_true, if_false,
      List.nil_append]
  · simp only [h, sampleLoop, hle, if_true, add, hinf, Bool.false_eq_true, if_false,
      List.nil_append]

/-- Witness for claim C6 (amended): the call over `[1, 2]` with `numPoints = 0` on the
curve mod 7 returns the points of the sample `x = 1`. -/
theorem generateCurvePoints_zero_count_witness :
    (unit : Int) ≤ 2 * unit ∧
      generateCurvePoints ModSqrt curve7 (fin unit) (fin (2 * unit)) 0 2 =
        some (samplePoints ModSqrt curve7.Params (fin unit)) ∧
      samplePoints ModSqrt curve7.Params (fin unit) = [⟨ofInt 1, 1, 0⟩, ⟨ofInt 1, 1, 7⟩] :=
  ⟨by decide, generateCurvePoints_zero_count ModSqrt curve7 unit (2 * unit) (by decide) 0,
    by decide⟩

/-- Claim C7: when `xMin > xMax` the loop condition fails at once and the call returns
the empty slice, whatever the curve and the sample count. -/
theorem generateCurvePoints_empty_of_reversed_range (modSqrt : Int → Int → Option Int)
    (curve : CurveDomain) (xMin xMax : Float64) (numPoints : Int) (fuel : Nat)
    (h : lt xMax xMin = true) :
    generateCurvePoints modSqrt curve xMin xMax numPoints (fuel + 1) = some [] := by
  unfold generateCurvePoints
  simp [sampleLoop, Float64.le_eq_false_of_lt h]

/-- Witness for claim C7: the range `[5, 2]` on P-256 with the sample count of `main`. -/
theorem generateCurvePoints_empty_of_reversed_range_witness :
    lt (ofInt 2) (ofInt 5) = true ∧
      generateCurvePoints ModSqrt P256 (ofInt 5) (ofInt 2) 1000 1 = some [] :=
  ⟨by decide,
    generateCurvePoints_empty_of_reversed_range ModSqrt P256 (ofInt 5) (ofInt 2) 1000 0
      (by decide)⟩

/-- Claim C10: for a sampled `x` that passes the range filter, the value handed to the
modular square root is `(x³ + B·x + B) mod p`, with the constant coefficient `B` where
the linear coefficient belongs; it equals `(x³ + A·x + B) mod p` exactly when
`(A - B)·x ≡ 0 (mod p)`. -/
theorem generateCurvePoints_rhs_uses_constant_coefficient
    (modSqrt : Int → Int → Option Int) (curve : CurveDomain) (x : Float64)
    (hx : lt x zero = false) (hp : toInt64 x < curve.p) :
    samplePoints modSqrt curve.Params x =
        (match modSqrt ((toInt64 x ^ 3 + curve.b * toInt64 x + curve.b) % curve.p) curve.p with
          | none => []
          | some y => [⟨x, toInt64 x, y⟩, ⟨x, toInt64 x, curve.p - y⟩]) ∧
      rhs curve.Params (toInt64 x) =
        (toInt64 x ^ 3 + curve.b * toInt64 x + curve.b) % curve.p ∧
      (rhs curve.Params (toInt64 x) =
          (toInt64 x ^ 3 + curve.a * toInt64 x + curve.b) % curve.p ↔
        ((curve.a - curve.b) * toInt64 x) % curve.p = 0) := by
  have hr := rhs_eq curve.Params (toInt64 x)
  have hlt2 : ¬ curve.Params.P ≤ toInt64 x := not_le.mpr hp
  refine ⟨?_, hr, ?_⟩
  · unfold samplePoints
    simp only [hx, Bool.false_eq_true, if_false, if_neg hlt2]
    rw [hr]
    rfl
  · rw [hr]
    show (toInt64 x ^ 3 + curve.b * toInt64 x + curve.b) % curve.p = _ ↔ _
    rw [Int.emod_eq_emod_iff_emod_sub_eq_zero]
    have e : toInt64 x ^ 3 + curve.b * toInt64 x + curve.b -
        (toInt64 x ^ 3 + curve.a * toInt64 x + curve.b) =
        -((curve.a - curve.b) * toInt64 x) := by ring
    rw [e]
    constructor
    · intro h
      have := Int.dvd_of_emod_eq_zero h
      exact Int.emod_eq_zero_of_dvd ((Int.dvd_neg).mp this)
    · intro h
      have := Int.dvd_of_emod_eq_zero h
      exact Int.emod_eq_zero_of_dvd ((Int.dvd_neg).mpr this)

/-- Witness for claim C10: the sample `x = 3` on the curve mod 7, where the value is
`(27 + 9 + 3) mod 7 = 4` and `(A - B)·x = 3` is not a multiple of `7`. -/
theorem generateCurvePoints_rhs_uses_constant_coefficient_witness :
    lt (ofInt 3) zero = false ∧ toInt64 (ofInt 3) < curve7.p ∧
      rhs curve7.Params (toInt64 (ofInt 3)) = 4 ∧
      (rhs curve7.Params (toInt64 (ofInt 3)) =
          (toInt64 (ofInt 3) ^ 3 + curve7.a * toInt64 (ofInt 3) + curve7.b) % curve7.p ↔
        ((curve7.a - curve7.b) * toInt64 (ofInt 3)) % curve7.p = 0) :=
  ⟨by decide, by decide, by decide,
    (generateCurvePoints_rhs_uses_constant_coefficient ModSqrt curve7 (ofInt 3) (by decide)
      (by decide)).2.2⟩

end ECC

/-! ## Point membership -/

namespace ECC

theorem IsOnCurve_iff (curve : CurveDomain) (x y : Int) :
    IsOnCurve curve x y = true ↔
      (0 ≤ x ∧ x < curve.p ∧ 0 ≤ y ∧ y < curve.p) ∧
        (y * y) % curve.p = (x ^ 3 + curve.a * x + curve.b) % curve.p := by
  simp [IsOnCurve]

/-- Claim C8, refuted as stated: on the curve `y² = x³ + 4·x + 3 (mod 7)` the point
`(3, 0)` passes `IsOnCurve`, and its mirror `(3, 7 - 0)` does not: `7` lies outside
`[0, 7)`. -/
theorem IsOnCurve_mirror_fails_at_zero :
    IsOnCurve curve7 3 0 = true ∧ IsOnCurve curve7 3 (curve7.p - 0) = false := by
  decide

/-- Claim C8, amended: if `IsOnCurve(x, y)` is true then `IsOnCurve(x, p - y)` is true
exactly when `y` is not `0`; so membership is symmetric under `y ↦ p - y` for every
`x` in `[0, p)` and every `y` in `(0, p)`. -/
theorem IsOnCurve_mirror (curve : CurveDomain) (x y : Int)
    (h : IsOnCurve curve x y = true) :
    IsOnCurve curve x (curve.p - y) = true ↔ y ≠ 0 := by
  rw [IsOnCurve_iff] at h
  obtain ⟨⟨hx0, hxp, hy0, hyp⟩, heq⟩ := h
  rw [IsOnCurve_iff]
  constructor
  · rintro ⟨⟨_, _, _, hlt⟩, _⟩
    omega
  · intro hy
    refine ⟨⟨hx0, hxp, by omega, by omega⟩, ?_⟩
    rw [← heq]
    have e : (curve.p - y) * (curve.p - y) = y * y + curve.p * (curve.p - 2 * y) := by ring
    rw [e, Int.add_mul_emod_self_left]

/-- Witness for claim C8 (amended): `(1, 1)` and its mirror `(1, 6)` on the curve
`y² = x³ + 4·x + 3 (mod 7)`. -/
theorem IsOnCurve_mirror_witness :
    IsOnCurve curve7 1 1 = true ∧
      (IsOnCurve curve7 1 (curve7.p - 1) = true ↔ (1 : Int) ≠ 0) ∧
      IsOnCurve curve7 1 6 = true :=
  ⟨by decide, IsOnCurve_mirror curve7 1 1 (by decide), by decide⟩

end ECC

/-! ## The claim about `Circuit.CheckConstraints` -/

namespace ZkSnark

/-- Claim C9: `CheckConstraints` returns true if and only if there are at least 3 public
inputs and at least 2 witness values and `Witness[0] * Witness[1]` equals
`PublicInputs[2]` as integers; it returns false, without indexing, when there are
fewer than 3 public inputs or fewer than 2 witness values; and it returns true for
the circuit built in `main`. -/
theorem CheckConstraints_enforces_product (c : Circuit) :
    (c.CheckConstraints = some true ↔
        3 ≤ c.PublicInputs.length ∧ 2 ≤ c.Witness.length ∧
          ∃ a b expectedC : Int, c.Witness[0]? = some (some a) ∧
            c.Witness[1]? = some (some b) ∧ c.PublicInputs[2]? = some (some expectedC) ∧
            a * b = expectedC) ∧
      (c.PublicInputs.length < 3 ∨ c.Witness.length < 2 → c.CheckConstraints = some false) ∧
      mainCircuit.CheckConstraints = some true := by
  refine ⟨?_, ?_, by decide⟩
  · unfold Circuit.CheckConstraints
    by_cases hlen : c.PublicInputs.length < 3 ∨ c.Witness.length < 2
    · rw [if_pos hlen]
      constructor
      · intro h; cases h
      · rintro ⟨h3, h2, _⟩; omega
    · rw [if_neg hlen]
      have h3 : 3 ≤ c.PublicInputs.length := by omega
      have h2 : 2 ≤ c.Witness.length := by omega
      constructor
      · intro h
        refine ⟨h3, h2, ?_⟩
        split at h
        · next a b e ha hb he =>
          refine ⟨a, b, e, ha, hb, he, ?_⟩
          simpa using h
        · cases h
      · rintro ⟨_, _, a, b, e, ha, hb, he, hab⟩
        rw [ha, hb, he]
        simp [hab]
  · intro hlen
    unfold Circuit.CheckConstraints
    rw [if_pos hlen]

end ZkSnark

/-! ## Further properties of the sampling loop -/

namespace ECC

open Float64

/-- A range of one point: when `xMin` and `xMax` are the same finite float and
`numPoints` is positive, `step` is `0` and the loop condition never fails: no number of
iterations makes the call return. -/
theorem generateCurvePoints_point_range_never_returns (modSqrt : Int → Int → Option Int)
    (curve : CurveDomain) (k : Int) (hk : ofUnits k = fin k) (numPoints : Int)
    (hN : 0 < numPoints) (fuel : Nat) :
    generateCurvePoints modSqrt curve (fin k) (fin k) numPoints fuel = none := by
  have hsub : sub (fin k) (fin k) = fin 0 := by
    simp [sub, neg, add, Float64.ofUnits_zero]
  have hround0 : ∀ d : Nat, d ≠ 0 → roundUnits (0 * unit) d = 0 := by
    intro d hd
    have hd2 : ¬ (0 = d) := fun h => hd h.symm
    simp [roundUnits, bitLength, hd2]
  have hdiv : div (fin 0) (ofInt numPoints) = fin 0 := by
    have hpos : 0 < numPoints * (unit : Int) :=
      mul_pos hN (by exact_mod_cast Nat.two_pow_pos 1074)
    have hdec : decide (numPoints * (unit : Int) < 0) = false := by
      simp [not_lt.mpr hpos.le]
    have hnat : 0 < (numPoints * (unit : Int)).natAbs := Int.natAbs_pos.mpr hpos.ne'
    have hr := Float64.roundUnits_pos hnat
    unfold ofInt ofUnits ofRatio
    rw [hdec]
    by_cases hov : overflowUnits ≤ roundUnits (numPoints * (unit : Int)).natAbs 1
    · simp [hov, div]
    · have hne : (roundUnits (numPoints * (unit : Int)).natAbs 1 : Int) ≠ 0 := by
        exact_mod_cast hr.ne'
      have hne2 : roundUnits (numPoints * (unit : Int)).natAbs 1 ≠ 0 := hr.ne'
      simp only [hov, if_false, Bool.false_eq_true, div, if_neg hne, Int.natAbs_zero,
        Int.natAbs_ofNat]
      unfold ofRatio
      rw [hround0 _ hne2]
      have h0 : ¬ overflowUnits ≤ 0 := by decide
      simp [h0]
  unfold generateCurvePoints
  simp only [hsub, hdiv]
  have hadd : add (fin k) (fin 0) = fin k := by simp [add, hk]
  exact sampleLoop_absorbed modSqrt curve.Params (fin k) (fin 0) (fin k)
    (Float64.le_refl_fin k) hadd fuel []

/-- A range of one point in `main`: for a key whose X coordinate has the low 64 bits
`2^62`, `xFloat - 100` and `xFloat + 100` both round to `2^62`, so
`generateCurvePoints(curve, 2^62, 2^62, 1000)` is called, and it has not returned
after a million evaluations of the loop condition. -/
theorem generateCurvePoints_point_range_never_returns_witness :
    mainXMin (2 ^ 62) = fin (2 ^ 62 * unit) ∧
      mainXMax (2 ^ 62) = fin (2 ^ 62 * unit) ∧
      ofUnits (2 ^ 62 * unit) = fin (2 ^ 62 * unit) ∧ (0 : Int) < 1000 ∧
      generateCurvePoints ModSqrt P256 (fin (2 ^ 62 * unit)) (fin (2 ^ 62 * unit)) 1000
        1000000 = none :=
  ⟨by decide, by decide, by decide, by decide,
    generateCurvePoints_point_range_never_returns ModSqrt P256 (2 ^ 62 * unit) (by decide)
      1000 (by decide) 1000000⟩

/-- For `p ≡ 3 (mod 4)` the square root returned squares to `r`. -/
theorem ModSqrt_sound (r p y : Int) (hp : p % 4 = 3) (h : ModSqrt r p = some y) :
    (y * y) % p = r % p := by
  unfold ModSqrt at h
  rw [if_pos hp] at h
  dsimp only at h
  split at h
  · next hy => cases h; exact hy
  · cases h

theorem sampleLoop_forall (Q : CurvePoint → Prop) (modSqrt : Int → Int → Option Int)
    (p : CurveParams) (hbody : ∀ x, ∀ pt ∈ samplePoints modSqrt p x, Q pt)
    (xMax step : Float64) (fuel : Nat) (x : Float64) (acc out : List CurvePoint)
    (hacc : ∀ pt ∈ acc, Q pt) (h : sampleLoop modSqrt p xMax step fuel x acc = some out) :
    ∀ pt ∈ out, Q pt := by
  induction fuel generalizing x acc with
  | zero => simp [sampleLoop] at h
  | succ f ih =>
    unfold sampleLoop at h
    split at h
    · refine ih _ _ ?_ h
      intro pt hpt
      rcases List.mem_append.mp hpt with h1 | h1
      · exact hacc pt h1
      · exact hbody x pt h1
    · cases h; exact hacc

/-- What the loop guarantees of a returned point when the square root routine returns
roots only: the quantized abscissa is below `p` and the ordinate squares to the value
the code computed, `y² ≡ x³ + B·x + B (mod p)`. -/
theorem generateCurvePoints_points_on_computed_curve (modSqrt : Int → Int → Option Int)
    (curve : CurveDomain)
    (hsqrt : ∀ r y : Int, modSqrt r curve.p = some y → (y * y) % curve.p = r % curve.p)
    (xMin xMax : Float64) (numPoints : Int) (fuel : Nat)
    (points : List CurvePoint)
    (h : generateCurvePoints modSqrt curve xMin xMax numPoints fuel = some points) :
    ∀ pt ∈ points, pt.x < curve.p ∧
      (pt.y * pt.y) % curve.p = (pt.x ^ 3 + curve.b * pt.x + curve.b) % curve.p := by
  refine sampleLoop_forall _ modSqrt curve.Params ?_ xMax _ fuel xMin [] points
    (by simp) h
  intro x pt hpt
  unfold samplePoints at hpt
  split at hpt
  · simp at hpt
  · dsimp only at hpt
    split at hpt
    · simp at hpt
    · next hlt =>
      have hlt2 : toInt64 x < curve.p := not_le.mp hlt
      split at hpt
      · simp at hpt
      · next yBig hy =>
        have hroot := hsqrt _ _ hy
        rw [rhs_eq] at hroot
        have hroot2 : (yBig * yBig) % curve.p =
            (toInt64 x ^ 3 + curve.b * toInt64 x + curve.b) % curve.p := by
          simpa [CurveDomain.Params] using hroot
        simp only [List.mem_cons, List.mem_singleton, List.not_mem_nil, or_false] at hpt
        rcases hpt with rfl | rfl
        · exact ⟨hlt2, hroot2⟩
        · refine ⟨hlt2, ?_⟩
          show ((curve.p - yBig) * (curve.p - yBig)) % curve.p = _
          have e : (curve.p - yBig) * (curve.p - yBig) =
              yBig * yBig + curve.p * (curve.p - 2 * yBig) := by ring
          rw [e, Int.add_mul_emod_self_left, hroot2]

/-- The guarantee at a concrete run: the point `(3, 5)` returned for the curve mod 7
over `[0, 3]` has `5² ≡ 3³ + 3·3 + 3 (mod 7)`. -/
theorem generateCurvePoints_points_on_computed_curve_witness :
    (∀ r y : Int, ModSqrt r curve7.p = some y → (y * y) % curve7.p = r % curve7.p) ∧
      generateCurvePoints ModSqrt curve7 (ofInt 0) (ofInt 3) 3 5 =
        some [⟨ofInt 1, 1, 0⟩, ⟨ofInt 1, 1, 7⟩, ⟨ofInt 3, 3, 2⟩, ⟨ofInt 3, 3, 5⟩] ∧
      ((3 : Int) < curve7.p ∧
        ((5 : Int) * 5) % curve7.p = ((3 : Int) ^ 3 + curve7.b * 3 + curve7.b) % curve7.p) :=
  ⟨fun r y h => ModSqrt_sound r curve7.p y (by decide) h, by decide,
    generateCurvePoints_points_on_computed_curve ModSqrt curve7
      (fun r y h => ModSqrt_sound r curve7.p y (by decide) h) (ofInt 0) (ofInt 3) 3 5
      [⟨ofInt 1, 1, 0⟩, ⟨ofInt 1, 1, 7⟩, ⟨ofInt 3, 3, 2⟩, ⟨ofInt 3, 3, 5⟩]
      (by decide) ⟨ofInt 3, 3, 5⟩ (by simp)⟩

end ECC

/-! ## Termination of the sampling loop away from absorption -/

namespace ECC

open Float64

/-- Rounding to 53 bits loses at most the fraction `2^-53` of the number rounded. -/
theorem Float64.roundUnits_lower (n : Nat) : 2 ^ 53 * n ≤ 2 ^ 53 * roundUnits n 1 + n := by
  have hdm := Nat.div_add_mod n (1 * 2 ^ (bitLength n n - 53))
  have hmod := Nat.mod_lt n (show 0 < 1 * 2 ^ (bitLength n n - 53) by
    rw [one_mul]; exact Nat.two_pow_pos _)
  unfold roundUnits
  simp only [Nat.div_one]
  generalize n / (1 * 2 ^ (bitLength n n - 53)) = q at hdm
  generalize n % (1 * 2 ^ (bitLength n n - 53)) = r at hdm hmod
  split
  · have : n ≤ (q + 1) * 2 ^ (bitLength n n - 53) := by
      rw [one_mul] at hdm hmod
      nlinarith
    omega
  · next hc =>
    have h2r : 2 * r ≤ 1 * 2 ^ (bitLength n n - 53) := by
      by_contra hcon
      exact hc (Or.inl (by omega))
    rw [one_mul] at hdm hmod h2r
    have hq : q * 2 ^ (bitLength n n - 53) + r = n := by rw [mul_comm]; exact hdm
    by_cases hsh : bitLength n n ≤ 53
    · have h0 : bitLength n n - 53 = 0 := by omega
      rw [h0] at hmod hq ⊢
      simp only [pow_zero, mul_one] at hmod hq ⊢
      omega
    · have hn : n ≠ 0 := by
        rintro rfl
        simp [bitLength] at hsh
      have hb := Float64.bitLength_le n n hn
      have hsplit : bitLength n n = (bitLength n n - 53) + 53 := by omega
      rw [hsplit, pow_add] at hb
      generalize 2 ^ (bitLength n n - 53) = D at hb hq h2r hmod ⊢
      have h53 : (2 : Nat) ^ 53 = 2 * 2 ^ 52 := by norm_num
      nlinarith

/-- Adding a positive step `s` to a non-negative `k < (2^53 - 1)·s` gives a larger float:
the step is not absorbed. -/
theorem Float64.lt_add_fin {k s : Int} (hk : 0 ≤ k) (hs : 0 < s)
    (h : k < (2 ^ 53 - 1) * s) : lt (fin k) (add (fin k) (fin s)) = true := by
  have hdec : decide (k + s < 0) = false := by
    have : ¬ k + s < 0 := by omega
    simp [this]
  have hlow := Float64.roundUnits_lower (k + s).natAbs
  have habs : (((k + s).natAbs : Nat) : Int) = k + s := Int.natAbs_of_nonneg (by omega)
  show lt (fin k) (ofUnits (k + s)) = true
  unfold ofUnits ofRatio
  rw [hdec]
  by_cases hov : overflowUnits ≤ roundUnits (k + s).natAbs 1
  · simp [hov, lt]
  · simp only [hov, if_false, Bool.false_eq_true, lt, decide_eq_true_eq]
    generalize roundUnits (k + s).natAbs 1 = R at hlow
    generalize (k + s).natAbs = N at hlow habs
    omega

/-- The loop leaves after at most `b - k + 1` evaluations of its condition when every
`x` in `[xMin, xMax]` has `x < x + step`. -/
theorem sampleLoop_terminates (modSqrt : Int → Int → Option Int) (p : CurveParams)
    (a b : Int) (step : Float64)
    (hstep : ∀ k : Int, a ≤ k → k ≤ b → lt (fin k) (add (fin k) step) = true)
    (n : Nat) (k : Int) (acc : List CurvePoint) (hak : a ≤ k) (hn : b - k < n) :
    ∃ out, sampleLoop modSqrt p (fin b) step (n + 1) (fin k) acc = some out := by
  induction n generalizing k acc with
  | zero =>
    have : ¬ k ≤ b := by omega
    exact ⟨acc, by simp [sampleLoop, le, this]⟩
  | succ m ih =>
    by_cases hkb : k ≤ b
    · have hlt := hstep k hak hkb
      unfold sampleLoop
      simp only [le, hkb, decide_True, if_true]
      cases hx : add (fin k) step with
      | nan => rw [hx] at hlt; simp [lt] at hlt
      | inf s =>
        rw [hx] at hlt
        cases s with
        | true => simp [lt] at hlt
        | false => exact ⟨acc ++ samplePoints modSqrt p (fin k), by simp [sampleLoop, le]⟩
      | fin k2 =>
        rw [hx] at hlt
        have hk2 : k < k2 := by simpa [lt] using hlt
        exact ih k2 _ (by omega) (by omega)
    · exact ⟨acc, by simp [sampleLoop, le, hkb]⟩

/-- Away from absorption the call returns: for finite `xMin`, `xMax`, if every float `x`
in `[xMin, xMax]` has `x < x + step`, then `generateCurvePoints` returns a slice. -/
theorem generateCurvePoints_terminates (modSqrt : Int → Int → Option Int)
    (curve : CurveDomain) (a b : Int) (numPoints : Int)
    (hstep : ∀ k : Int, a ≤ k → k ≤ b →
      lt (fin k) (add (fin k) (div (sub (fin b) (fin a)) (ofInt numPoints))) = true) :
    ∃ points, generateCurvePoints modSqrt curve (fin a) (fin b) numPoints
      ((b - a).toNat + 2) = some points := by
  unfold generateCurvePoints
  exact sampleLoop_terminates modSqrt curve.Params a b _ hstep ((b - a).toNat + 1) a []
    le_rfl (by omega)

/-- The call of `main` for a key with `X = 100`, over `[0, 200]` with 1000 samples on
P-256: the step is the float nearest to `0.2`, no `x` in the range absorbs it, and the
call returns. -/
theorem generateCurvePoints_terminates_witness :
    (∀ k : Int, 0 ≤ k → k ≤ 200 * unit →
        lt (fin k) (add (fin k) (div (sub (fin (200 * unit)) (fin 0)) (ofInt 1000))) = true) ∧
      ∃ points, generateCurvePoints ModSqrt P256 (fin 0) (fin (200 * unit)) 1000
        (((200 * unit : Int) - 0).toNat + 2) = some points :=
  have hs : div (sub (fin (200 * unit)) (fin 0)) (ofInt 1000) =
      fin ((3602879701896397 * 2 ^ 1020 : Nat) : Int) := by decide
  have hstep : ∀ k : Int, 0 ≤ k → k ≤ 200 * unit →
      lt (fin k) (add (fin k) (div (sub (fin (200 * unit)) (fin 0)) (ofInt 1000))) = true :=
    fun k h0 hk => by
      rw [hs]
      have hu : (200 * unit : Int) <
          (2 ^ 53 - 1) * ((3602879701896397 * 2 ^ 1020 : Nat) : Int) := by decide
      exact Float64.lt_add_fin h0 (by decide) (lt_of_le_of_lt hk hu)
  ⟨hstep, generateCurvePoints_terminates ModSqrt P256 0 (200 * unit) 1000 hstep⟩

end ECC
